import Mathlib

/-!
# Transaction Co-occurrence Analysis Engine — verification

A shallow embedding of the market-basket analysis engine of `src/app.py`
(the bakery market-basket dashboard), together with proofs about its
filtering, grouping, pair-counting, ranking and cross-tabulation logic.

Item labels are modelled by an arbitrary linearly ordered type `K`
(in the source they are Python strings, compared lexicographically by
code point, which is one such order).  Time-of-day segments (`Daypart`)
are kept as `String`, since the engine only ever tests them for equality
and membership.  Transaction identifiers are natural numbers.

A Python `Counter` is modelled as an insertion-ordered association list
`List (A × Nat)`: a `dict` keeps keys in first-insertion order, and
incrementing an existing key does not move it.
-/

/-- One row of the transaction log: the columns `TransactionNo`, `Items`
and `Daypart` of the dataframe loaded in `src/app.py` (`load_data`).
The `DateTime` column is never consulted by the engine and is omitted. -/
structure Row (K : Type) where
  TransactionNo : Nat
  Items : K
  Daypart : String

/-- Whether a value passes an optional multiselect filter, as in
`src/app.py` lines 30–34: `if f and len(f) > 0: df = df[df[col].isin(f)]`.
An absent (`none`) or empty filter restricts nothing. -/
def passFilter {A : Type} [DecidableEq A] (f : Option (List A)) (v : A) : Bool :=
  match f with
  | none => true
  | some l => if l.isEmpty then true else decide (v ∈ l)

/-- The filtering step of `get_item_pairs` (`src/app.py` lines 28–34, and
the identical inline filtering of `filtered_df` at lines 85–89): retain
the rows passing the daypart filter and the items filter. -/
def filterRows {K : Type} [DecidableEq K] (rows : List (Row K))
    (daypart_filter : Option (List String)) (items_filter : Option (List K)) :
    List (Row K) :=
  (rows.filter (fun r => passFilter daypart_filter r.Daypart)).filter
    (fun r => passFilter items_filter r.Items)

/-- The distinct transaction identifiers of a row list, in ascending
order: the (sorted) group keys of `groupby('TransactionNo')`. -/
def transactionIds {K : Type} (rows : List (Row K)) : List Nat :=
  ((rows.map (fun r => r.TransactionNo)).dedup).insertionSort (· ≤ ·)

/-- `filtered_df.groupby('TransactionNo')['Items'].apply(list)`
(`src/app.py` line 37): for each distinct transaction identifier in
ascending order, the list of its item labels in row order. -/
def transactions {K : Type} (rows : List (Row K)) : List (Nat × List K) :=
  (transactionIds rows).map
    (fun t => (t, (rows.filter (fun r => decide (r.TransactionNo = t))).map
      (fun r => r.Items)))

/-- `sorted(set(items))` (`src/app.py` lines 42–44): the distinct items
of a basket, in ascending order. -/
def sortedUniqueItems {K : Type} [LinearOrder K] (items : List K) : List K :=
  items.dedup.insertionSort (· ≤ ·)

/-- `itertools.combinations(l, 2)`: all 2-combinations of a list, each
pair in the order its components appear in the list. -/
def combinations2 {A : Type} : List A → List (A × A)
  | [] => []
  | x :: xs => (xs.map (fun y => (x, y))) ++ combinations2 xs

/-- `counter[k] += 1` on a Python `Counter`: an existing key is bumped in
place, a new key is appended with count 1. -/
def counterAdd {A : Type} [DecidableEq A] (c : List (A × Nat)) (k : A) :
    List (A × Nat) :=
  if c.any (fun p => decide (p.1 = k)) then
    c.map (fun p => if p.1 = k then (p.1, p.2 + 1) else p)
  else c ++ [(k, 1)]

/-- `counter[k]` as a total lookup: the stored count of `k`, or 0. -/
def counterCount {A : Type} [DecidableEq A] (c : List (A × Nat)) (k : A) : Nat :=
  match c.find? (fun p => decide (p.1 = k)) with
  | some p => p.2
  | none => 0

/-- `get_item_pairs` (`src/app.py` lines 26–47): filter the rows, group
them by transaction, and for each basket with at least 2 distinct items
count every sorted 2-combination of its distinct items once. -/
def get_item_pairs {K : Type} [LinearOrder K] (rows : List (Row K))
    (daypart_filter : Option (List String)) (items_filter : Option (List K)) :
    List ((K × K) × Nat) :=
  (transactions (filterRows rows daypart_filter items_filter)).foldl
    (fun pair_counter t =>
      let unique_items := sortedUniqueItems t.2
      if 2 ≤ unique_items.length then
        (combinations2 unique_items).foldl counterAdd pair_counter
      else pair_counter)
    []

/-- `get_item_stats` / `df['Items'].value_counts()` (`src/app.py` lines
49–52) as the frequency mapping it denotes: the number of rows carrying
a given item label. -/
def get_item_stats {K : Type} [DecidableEq K] (rows : List (Row K)) (k : K) : Nat :=
  rows.countP (fun r => decide (r.Items = k))

/-- The grouping stage as the spec's `group_baskets`: the composition of
the filtering (lines 28–34), the `groupby` (line 37) and the per-basket
`sorted(set(...))` collapse (lines 42–44) of `src/app.py`, returning for
each surviving transaction its set of distinct items. -/
def group_baskets {K : Type} [LinearOrder K] (rows : List (Row K))
    (daypart_filter : Option (List String)) (items_filter : Option (List K)) :
    List (Nat × List K) :=
  (transactions (filterRows rows daypart_filter items_filter)).map
    (fun t => (t.1, sortedUniqueItems t.2))

/-- `avg_basket = len(filtered_df) / max(filtered_df['TransactionNo'].nunique(), 1)`
(`src/app.py` line 100), as an exact rational. -/
def avg_basket {K : Type} (rows : List (Row K)) : Rat :=
  (rows.length : Rat) / ((max ((rows.map (fun r => r.TransactionNo)).dedup.length) 1 : Nat) : Rat)

/-- `Counter.most_common(n)` (`src/app.py` lines 131 and 217):
`heapq.nlargest(n, items, key=count)`, i.e. the stable descending sort of
the counter's entries by count, truncated to `n`; a non-positive `n`
yields the empty list. -/
def most_common {A : Type} (c : List (A × Nat)) (n : Int) : List (A × Nat) :=
  if n ≤ 0 then [] else
    (List.insertionSort (fun p q : A × Nat => q.2 ≤ p.2) c).take n.toNat

/-- The declared segment enumeration (`src/app.py` line 61). -/
def daypart_order : List String := ["Morning", "Afternoon", "Evening", "Night"]

/-- The heatmap pivot (`src/app.py` lines 245–247), parametric in the
top-items list computed at line 245:
`df[df['Items'].isin(top)].groupby(['Daypart','Items']).size().unstack(fill_value=0).reindex(dayparts)`.
Returns the column labels (the distinct filtered items, which `unstack`
sorts ascending) and one row per entry of `dayparts`: a daypart that
occurs among the filtered rows gets its cell counts (0-filled), a daypart
that does not gets a row of `NaN` (modelled `none`) from `reindex`. -/
def heatmap_data {K : Type} [LinearOrder K] (rows : List (Row K))
    (top_items_list : List K) (dayparts : List String) :
    List K × List (String × List (Option Nat)) :=
  let fr := rows.filter (fun r => decide (r.Items ∈ top_items_list))
  let cols := ((fr.map (fun r => r.Items)).dedup).insertionSort (· ≤ ·)
  (cols, dayparts.map (fun d =>
    (d, if fr.any (fun r => decide (r.Daypart = d)) then
          cols.map (fun it =>
            some (fr.countP (fun r => decide (r.Daypart = d ∧ r.Items = it))))
        else cols.map (fun _ => (none : Option Nat)))))

/-- The spec's running example (§8): rows
`[(T1,A,Morning),(T1,B,Morning),(T2,A,Morning),(T2,C,Morning),(T3,B,Evening)]`,
with item labels embedded as characters. -/
def exampleRows : List (Row Char) :=
  [⟨1, 'A', "Morning"⟩, ⟨1, 'B', "Morning"⟩, ⟨2, 'A', "Morning"⟩,
   ⟨2, 'C', "Morning"⟩, ⟨3, 'B', "Evening"⟩]

/-- The spec's duplicate-item example: one transaction with rows `[A, A, B]`. -/
def duplicateRows : List (Row Char) :=
  [⟨1, 'A', "Morning"⟩, ⟨1, 'A', "Morning"⟩, ⟨1, 'B', "Morning"⟩]

/-- Two baskets `{B,C}` and `{A,B}`: the earlier transaction inserts the
lexicographically larger pair key first. -/
def tieRows : List (Row Char) :=
  [⟨1, 'B', "Morning"⟩, ⟨1, 'C', "Morning"⟩, ⟨2, 'A', "Morning"⟩,
   ⟨2, 'B', "Morning"⟩]

/-- One transaction of two items whose segment `"Brunch"` lies outside the
declared enumeration `daypart_order`. -/
def brunchRows : List (Row Char) :=
  [⟨1, 'c', "Brunch"⟩, ⟨1, 't', "Brunch"⟩]

/-- Three Morning rows: item `'c'` twice, item `'b'` once; no row in any
other daypart. -/
def heatRows : List (Row Char) :=
  [⟨1, 'c', "Morning"⟩, ⟨2, 'c', "Morning"⟩, ⟨3, 'b', "Morning"⟩]

/-! ## Counter lemmas -/

theorem counterCount_nil {A : Type} [DecidableEq A] (k : A) :
    counterCount ([] : List (A × Nat)) k = 0 := rfl

theorem counterCount_cons {A : Type} [DecidableEq A] (p : A × Nat)
    (c : List (A × Nat)) (k : A) :
    counterCount (p :: c) k = if p.1 = k then p.2 else counterCount c k := by
  by_cases h : p.1 = k
  · simp [counterCount, List.find?_cons_of_pos, h]
  · simp [counterCount, List.find?_cons_of_neg, h]

theorem counterCount_eq_zero_of_not_any {A : Type} [DecidableEq A]
    {c : List (A × Nat)} {k : A}
    (h : ¬ c.any (fun p => decide (p.1 = k))) : counterCount c k = 0 := by
  induction c with
  | nil => rfl
  | cons p ps ih =>
    simp only [List.any_cons, Bool.or_eq_true, decide_eq_true_eq] at h
    push_neg at h
    rw [counterCount_cons, if_neg h.1]
    exact ih (by simpa using h.2)

theorem counterCount_append {A : Type} [DecidableEq A] (c d : List (A × Nat))
    (k : A) :
    counterCount (c ++ d) k =
      if c.any (fun p => decide (p.1 = k)) then counterCount c k
      else counterCount d k := by
  induction c with
  | nil => simp [counterCount]
  | cons p ps ih =>
    by_cases h : p.1 = k
    · simp [List.cons_append, counterCount_cons, h]
    · rw [List.cons_append, counterCount_cons, if_neg h, ih, List.any_cons,
        decide_eq_false h, Bool.false_or, counterCount_cons, if_neg h]

theorem counterCount_map_bump {A : Type} [DecidableEq A] (k' k : A)
    (c : List (A × Nat)) :
    counterCount (c.map (fun p => if p.1 = k' then (p.1, p.2 + 1) else p)) k =
      counterCount c k +
        (if k' = k ∧ c.any (fun p => decide (p.1 = k)) then 1 else 0) := by
  induction c with
  | nil => simp [counterCount]
  | cons p ps ih =>
    have hfst : (if p.1 = k' then (p.1, p.2 + 1) else p).1 = p.1 := by
      split <;> rfl
    by_cases h : p.1 = k
    · rw [List.map_cons, counterCount_cons, hfst, if_pos h,
        counterCount_cons, if_pos h]
      by_cases h' : p.1 = k'
      · have hk : k' = k := h' ▸ h
        simp [h', hk, h]
      · have hk : ¬ k' = k := fun e => h' (h.trans e.symm)
        simp [h', hk]
    · rw [List.map_cons, counterCount_cons, hfst, if_neg h,
        counterCount_cons, if_neg h, ih, List.any_cons, decide_eq_false h,
        Bool.false_or]

theorem counterAdd_count {A : Type} [DecidableEq A] (c : List (A × Nat))
    (k' k : A) :
    counterCount (counterAdd c k') k =
      counterCount c k + (if k' = k then 1 else 0) := by
  unfold counterAdd
  by_cases h : c.any (fun p => decide (p.1 = k'))
  · rw [if_pos h, counterCount_map_bump]
    by_cases hk : k' = k
    · subst hk
      simp [h]
    · simp [hk]
  · rw [if_neg h, counterCount_append]
    by_cases hany : c.any (fun p => decide (p.1 = k))
    · have hk : ¬ k' = k := by
        rintro rfl
        exact h hany
      simp [hany, hk]
    · rw [if_neg hany, counterCount_eq_zero_of_not_any hany,
        counterCount_cons]
      simp [counterCount]

theorem counterCount_foldl_add {A : Type} [DecidableEq A] (l : List A)
    (c : List (A × Nat)) (k : A) :
    counterCount (l.foldl counterAdd c) k =
      counterCount c k + l.countP (fun x => decide (x = k)) := by
  induction l generalizing c with
  | nil => simp
  | cons x xs ih =>
    rw [List.foldl_cons, ih, counterAdd_count, List.countP_cons]
    by_cases h : x = k <;> simp [h] <;> try omega

/-! ## Combinations and sorted-distinct-items lemmas -/

theorem length_combinations2 {A : Type} (l : List A) :
    (combinations2 l).length = l.length.choose 2 := by
  induction l with
  | nil => simp [combinations2]
  | cons x xs ih =>
    rw [combinations2, List.length_append, List.length_map, ih,
      List.length_cons, Nat.choose_succ_succ, Nat.choose_one_right,
      Nat.add_comm]

theorem fst_lt_snd_of_mem_combinations2 {K : Type} [LinearOrder K]
    {l : List K} (hl : l.Pairwise (· < ·)) :
    ∀ p ∈ combinations2 l, p.1 < p.2 := by
  induction l with
  | nil => intro p hp; simp [combinations2] at hp
  | cons x xs ih =>
    intro p hp
    rw [combinations2, List.mem_append] at hp
    rcases hp with hp | hp
    · rcases List.mem_map.1 hp with ⟨y, hy, rfl⟩
      exact (List.pairwise_cons.1 hl).1 y hy
    · exact ih (List.pairwise_cons.1 hl).2 p hp

theorem countP_decide_eq {A : Type} [DecidableEq A] {l : List A}
    (hl : l.Nodup) (b : A) :
    l.countP (fun y => decide (y = b)) = if b ∈ l then 1 else 0 := by
  induction l with
  | nil => simp
  | cons x xs ih =>
    have hx : x ∉ xs := (List.nodup_cons.1 hl).1
    rw [List.countP_cons]
    by_cases hxb : x = b
    · subst hxb
      rw [ih (List.nodup_cons.1 hl).2, if_neg hx,
        if_pos (List.mem_cons_self x xs)]
      simp
    · rw [ih (List.nodup_cons.1 hl).2]
      have hbx : (b ∈ x :: xs) ↔ (b ∈ xs) := by
        rw [List.mem_cons]
        exact or_iff_right (fun h => hxb h.symm)
      rw [if_congr hbx rfl rfl]
      simp [hxb]

theorem countP_combinations2 {K : Type} [LinearOrder K] {l : List K}
    (hl : l.Pairwise (· < ·)) (a b : K) :
    (combinations2 l).countP (fun q => decide (q = (a, b))) =
      if a ∈ l ∧ b ∈ l ∧ a < b then 1 else 0 := by
  induction l with
  | nil => simp [combinations2]
  | cons x xs ih =>
    have hx : ∀ y ∈ xs, x < y := (List.pairwise_cons.1 hl).1
    have hxs : xs.Pairwise (· < ·) := (List.pairwise_cons.1 hl).2
    have hxmem : x ∉ xs := fun hmem => lt_irrefl x (hx x hmem)
    rw [combinations2, List.countP_append, ih hxs]
    have hmap : (xs.map (fun y => (x, y))).countP
        (fun q => decide (q = (a, b))) = if x = a ∧ b ∈ xs then 1 else 0 := by
      rw [List.countP_map]
      by_cases hxa : x = a
      · have hax : a = x := hxa.symm
        subst hax
        have hfun : ∀ y ∈ xs, ((fun q => decide (q = (a, b))) ∘
            fun y => (a, y)) y = true ↔ (fun y => decide (y = b)) y = true := by
          intro y _
          simp [Function.comp, Prod.ext_iff]
        rw [List.countP_congr hfun, countP_decide_eq (hxs.imp ne_of_lt) b]
        simp
      · rw [if_neg (fun h => hxa h.1), List.countP_eq_zero.2]
        intro y _
        simp only [Function.comp, decide_eq_true_eq, Prod.mk.injEq, not_and]
        intro h
        exact absurd h hxa
    rw [hmap]
    by_cases hxa : x = a
    · have hax : a = x := hxa.symm
      subst hax
      have hanotin : ¬ (a ∈ xs ∧ b ∈ xs ∧ a < b) := fun h => hxmem h.1
      rw [if_neg hanotin]
      by_cases hb : b ∈ xs
      · rw [if_pos ⟨rfl, hb⟩,
          if_pos ⟨List.mem_cons_self a xs, List.mem_cons_of_mem a hb, hx b hb⟩]
      · rw [if_neg (fun h => hb h.2), if_neg]
        rintro ⟨-, hbmem, hab⟩
        rcases List.mem_cons.1 hbmem with rfl | hbxs
        · exact lt_irrefl b hab
        · exact hb hbxs
    · rw [if_neg (fun h => hxa h.1), Nat.zero_add]
      by_cases hcond : a ∈ xs ∧ b ∈ xs ∧ a < b
      · rw [if_pos hcond,
          if_pos ⟨List.mem_cons_of_mem x hcond.1,
            List.mem_cons_of_mem x hcond.2.1, hcond.2.2⟩]
      · rw [if_neg hcond, if_neg]
        rintro ⟨haa, hbb, hab⟩
        rcases List.mem_cons.1 haa with rfl | haxs
        · exact hxa rfl
        rcases List.mem_cons.1 hbb with rfl | hbxs
        · exact absurd hab (not_lt_of_lt (hx a haxs))
        exact hcond ⟨haxs, hbxs, hab⟩

theorem sortedUniqueItems_sorted {K : Type} [LinearOrder K] (items : List K) :
    (sortedUniqueItems items).Sorted (· ≤ ·) :=
  List.sorted_insertionSort _ _

theorem sortedUniqueItems_nodup {K : Type} [LinearOrder K] (items : List K) :
    (sortedUniqueItems items).Nodup :=
  (List.perm_insertionSort _ _).nodup_iff.2 items.nodup_dedup

theorem sortedUniqueItems_pairwise {K : Type} [LinearOrder K] (items : List K) :
    (sortedUniqueItems items).Pairwise (· < ·) :=
  ((sortedUniqueItems_sorted items).and (sortedUniqueItems_nodup items)).imp
    (fun h => lt_of_le_of_ne h.1 h.2)

theorem sortedUniqueItems_mem {K : Type} [LinearOrder K] (items : List K)
    (a : K) : a ∈ sortedUniqueItems items ↔ a ∈ items := by
  simp [sortedUniqueItems, List.mem_insertionSort, List.mem_dedup]

/-! ## The pair-counting fold -/

theorem two_le_length_of_mem_ne {A : Type} {l : List A} {a b : A}
    (ha : a ∈ l) (hb : b ∈ l) (hab : a ≠ b) : 2 ≤ l.length := by
  cases l with
  | nil => simp at ha
  | cons x xs =>
    cases xs with
    | nil =>
      rw [List.mem_singleton] at ha hb
      exact absurd (ha.trans hb.symm) hab
    | cons y ys => simp [Nat.succ_le_succ]

theorem counterCount_get_step {K : Type} [LinearOrder K]
    (c : List ((K × K) × Nat)) (t : Nat × List K) (p : K × K) :
    counterCount
      (if 2 ≤ (sortedUniqueItems t.2).length then
        (combinations2 (sortedUniqueItems t.2)).foldl counterAdd c
      else c) p =
      counterCount c p +
        (if p.1 ∈ t.2 ∧ p.2 ∈ t.2 ∧ p.1 < p.2 then 1 else 0) := by
  by_cases hlen : 2 ≤ (sortedUniqueItems t.2).length
  · rw [if_pos hlen, counterCount_foldl_add]
    congr 1
    have hcnt := countP_combinations2 (sortedUniqueItems_pairwise t.2) p.1 p.2
    rw [hcnt]
    simp [sortedUniqueItems_mem]
  · rw [if_neg hlen]
    have hcond : ¬ (p.1 ∈ t.2 ∧ p.2 ∈ t.2 ∧ p.1 < p.2) := by
      rintro ⟨h1, h2, h3⟩
      exact hlen (two_le_length_of_mem_ne ((sortedUniqueItems_mem t.2 p.1).2 h1)
        ((sortedUniqueItems_mem t.2 p.2).2 h2) (ne_of_lt h3))
    simp [hcond]

theorem counterCount_pairs_foldl {K : Type} [LinearOrder K]
    (ts : List (Nat × List K)) (c : List ((K × K) × Nat)) (p : K × K) :
    counterCount
      (ts.foldl (fun pair_counter t =>
        let unique_items := sortedUniqueItems t.2
        if 2 ≤ unique_items.length then
          (combinations2 unique_items).foldl counterAdd pair_counter
        else pair_counter) c) p =
      counterCount c p +
        ts.countP (fun t => decide (p.1 ∈ t.2 ∧ p.2 ∈ t.2 ∧ p.1 < p.2)) := by
  induction ts generalizing c with
  | nil => simp
  | cons t ts ih =>
    rw [List.foldl_cons, ih, List.countP_cons]
    rw [show (let unique_items := sortedUniqueItems t.2
        if 2 ≤ unique_items.length then
          (combinations2 unique_items).foldl counterAdd c
        else c) =
      (if 2 ≤ (sortedUniqueItems t.2).length then
        (combinations2 (sortedUniqueItems t.2)).foldl counterAdd c
      else c) from rfl]
    rw [counterCount_get_step]
    by_cases hc : p.1 ∈ t.2 ∧ p.2 ∈ t.2 ∧ p.1 < p.2 <;> simp [hc] <;> try omega

/-- The central characterisation of `get_item_pairs`: a canonically ordered
pair is counted once per filtered basket containing both of its items;
a non-canonical key never appears. -/
theorem get_item_pairs_counterCount {K : Type} [LinearOrder K]
    (rows : List (Row K)) (f1 : Option (List String)) (f2 : Option (List K))
    (p : K × K) :
    counterCount (get_item_pairs rows f1 f2) p =
      if p.1 < p.2 then
        (transactions (filterRows rows f1 f2)).countP
          (fun t => decide (p.1 ∈ t.2 ∧ p.2 ∈ t.2))
      else 0 := by
  unfold get_item_pairs
  rw [counterCount_pairs_foldl, counterCount_nil, Nat.zero_add]
  by_cases hlt : p.1 < p.2
  · rw [if_pos hlt]
    apply List.countP_congr
    intro t _
    simp [hlt]
  · rw [if_neg hlt, List.countP_eq_zero.2]
    intro t _
    simp [hlt]

/-! ## Entry invariants of the pair counter -/

theorem counterAdd_forall {A : Type} [DecidableEq A] {P : A × Nat → Prop}
    {c : List (A × Nat)} {k : A} (hc : ∀ e ∈ c, P e) (h1 : P (k, 1))
    (hbump : ∀ e, P e → P (e.1, e.2 + 1)) :
    ∀ e ∈ counterAdd c k, P e := by
  intro e he
  unfold counterAdd at he
  split at he
  · rcases List.mem_map.1 he with ⟨q, hq, rfl⟩
    by_cases hqk : q.1 = k
    · rw [if_pos hqk]
      exact hbump q (hc q hq)
    · rw [if_neg hqk]
      exact hc q hq
  · rcases List.mem_append.1 he with h | h
    · exact hc e h
    · rcases List.mem_singleton.1 h with rfl
      exact h1

theorem counterFoldl_forall {A : Type} [DecidableEq A] {P : A × Nat → Prop}
    (hbump : ∀ e, P e → P (e.1, e.2 + 1)) :
    ∀ (l : List A) (c : List (A × Nat)), (∀ e ∈ c, P e) →
      (∀ k ∈ l, P (k, 1)) → ∀ e ∈ l.foldl counterAdd c, P e := by
  intro l
  induction l with
  | nil =>
    intro c hc _
    simpa using hc
  | cons x xs ih =>
    intro c hc hl
    rw [List.foldl_cons]
    exact ih _ (counterAdd_forall hc (hl x (List.mem_cons_self x xs)) hbump)
      (fun k hk => hl k (List.mem_cons_of_mem x hk))

theorem get_item_pairs_forall {K : Type} [LinearOrder K]
    {P : (K × K) × Nat → Prop} (h1 : ∀ a b : K, a < b → P ((a, b), 1))
    (hbump : ∀ e, P e → P (e.1, e.2 + 1)) (rows : List (Row K))
    (f1 : Option (List String)) (f2 : Option (List K)) :
    ∀ e ∈ get_item_pairs rows f1 f2, P e := by
  unfold get_item_pairs
  generalize transactions (filterRows rows f1 f2) = ts
  suffices h : ∀ (ts : List (Nat × List K)) (c : List ((K × K) × Nat)),
      (∀ e ∈ c, P e) →
      ∀ e ∈ ts.foldl (fun pair_counter t =>
        let unique_items := sortedUniqueItems t.2
        if 2 ≤ unique_items.length then
          (combinations2 unique_items).foldl counterAdd pair_counter
        else pair_counter) c, P e by
    exact h ts [] (by simp)
  intro ts
  induction ts with
  | nil =>
    intro c hc
    simpa using hc
  | cons t ts ih =>
    intro c hc
    rw [List.foldl_cons]
    apply ih
    rw [show (let unique_items := sortedUniqueItems t.2
        if 2 ≤ unique_items.length then
          (combinations2 unique_items).foldl counterAdd c
        else c) =
      (if 2 ≤ (sortedUniqueItems t.2).length then
        (combinations2 (sortedUniqueItems t.2)).foldl counterAdd c
      else c) from rfl]
    split
    · apply counterFoldl_forall hbump _ _ hc
      intro k hk
      exact h1 k.1 k.2
        (fst_lt_snd_of_mem_combinations2 (sortedUniqueItems_pairwise t.2) k hk)
    · exact hc

/-! ## Counter key membership -/

theorem mem_key_iff_counterCount_pos {A : Type} [DecidableEq A]
    {c : List (A × Nat)} (hpos : ∀ e ∈ c, 1 ≤ e.2) (p : A) :
    (∃ n, (p, n) ∈ c) ↔ 1 ≤ counterCount c p := by
  constructor
  · rintro ⟨n, hn⟩
    unfold counterCount
    cases hfind : c.find? (fun q => decide (q.1 = p)) with
    | none =>
      exfalso
      have := List.find?_eq_none.1 hfind (p, n) hn
      simp at this
    | some e => exact hpos e (List.mem_of_find?_eq_some hfind)
  · intro h
    unfold counterCount at h
    cases hfind : c.find? (fun q => decide (q.1 = p)) with
    | none =>
      rw [hfind] at h
      simp at h
    | some e =>
      have he : e ∈ c := List.mem_of_find?_eq_some hfind
      have hkey : e.1 = p := by
        have := List.find?_some hfind
        simpa using this
      exact ⟨e.2, hkey ▸ (show (e.1, e.2) ∈ c from he)⟩

/-! ## Filtering and grouping lemmas -/

theorem passFilter_iff {A : Type} [DecidableEq A] (f : Option (List A))
    (v : A) :
    passFilter f v = true ↔ ∀ l, f = some l → l ≠ [] → v ∈ l := by
  cases f with
  | none => simp [passFilter]
  | some l =>
    cases l with
    | nil => simp [passFilter]
    | cons x xs => simp [passFilter]

theorem mem_filterRows_iff {K : Type} [DecidableEq K] (rows : List (Row K))
    (f1 : Option (List String)) (f2 : Option (List K)) (r : Row K) :
    r ∈ filterRows rows f1 f2 ↔
      r ∈ rows ∧ passFilter f1 r.Daypart = true ∧
        passFilter f2 r.Items = true := by
  simp only [filterRows, List.mem_filter, and_assoc]

theorem mem_transactionIds_iff {K : Type} (rows : List (Row K)) (t : Nat) :
    t ∈ transactionIds rows ↔ ∃ r ∈ rows, r.TransactionNo = t := by
  simp [transactionIds, List.mem_insertionSort, List.mem_dedup, List.mem_map]

theorem mem_transactions_iff {K : Type} (rows : List (Row K)) (t : Nat)
    (its : List K) :
    (t, its) ∈ transactions rows ↔
      t ∈ transactionIds rows ∧
        its = (rows.filter (fun r => decide (r.TransactionNo = t))).map
          (fun r => r.Items) := by
  constructor
  · intro h
    rcases List.mem_map.1 h with ⟨t', ht', heq⟩
    rcases Prod.mk.inj heq with ⟨rfl, rfl⟩
    exact ⟨ht', rfl⟩
  · rintro ⟨ht, rfl⟩
    exact List.mem_map.2 ⟨t, ht, rfl⟩

/-! ## Ranking lemmas -/

theorem filter_orderedInsert_snd {A : Type} (m : Nat) (x : A × Nat)
    (l : List (A × Nat)) :
    (List.orderedInsert (fun p q : A × Nat => q.2 ≤ p.2) x l).filter
        (fun p => decide (p.2 = m)) =
      if x.2 = m then x :: l.filter (fun p => decide (p.2 = m))
      else l.filter (fun p => decide (p.2 = m)) := by
  induction l with
  | nil =>
    rw [List.orderedInsert]
    by_cases hx : x.2 = m <;> simp [List.filter, hx]
  | cons y ys ih =>
    rw [List.orderedInsert]
    split
    · by_cases hx : x.2 = m <;> simp [List.filter_cons, hx]
    · rename_i hr
      rw [List.filter_cons]
      by_cases hy : y.2 = m
      · have hx : ¬ x.2 = m := by
          intro hxm
          exact hr (by omega)
        simp [hy, hx, ih, List.filter_cons]
      · by_cases hx : x.2 = m <;> simp [hy, hx, ih, List.filter_cons]

theorem filter_insertionSort_snd {A : Type} (m : Nat) (l : List (A × Nat)) :
    (List.insertionSort (fun p q : A × Nat => q.2 ≤ p.2) l).filter
        (fun p => decide (p.2 = m)) = l.filter (fun p => decide (p.2 = m)) := by
  induction l with
  | nil => simp
  | cons x xs ih =>
    rw [List.insertionSort, filter_orderedInsert_snd, ih, List.filter_cons]
    by_cases hx : x.2 = m <;> simp [hx]

theorem sorted_desc_insertionSort_snd {A : Type} (l : List (A × Nat)) :
    (List.insertionSort (fun p q : A × Nat => q.2 ≤ p.2) l).Pairwise
      (fun p q => q.2 ≤ p.2) := by
  have htot : IsTotal (A × Nat) (fun p q => q.2 ≤ p.2) :=
    ⟨fun a b => Nat.le_total b.2 a.2⟩
  have htrans : IsTrans (A × Nat) (fun p q => q.2 ≤ p.2) :=
    ⟨fun a b c hab hbc => Nat.le_trans hbc hab⟩
  exact @List.sorted_insertionSort _ _ _ htot htrans l

/-! ## Claim theorems -/

/-- **C1**: for every dataset and filter combination, pair counting gives a
canonically sorted pair `(a, b)` with `a < b` a count equal to the number of
filtered baskets containing both items — one increment per basket, never more
per transaction (the basket is the set of distinct items), and a basket with
fewer than two distinct items contributes nothing (no pair has both members
in it).  Keys that are not sorted are never counted, and a basket of `k`
distinct items yields exactly `C(k, 2)` enumerated 2-combinations. -/
theorem get_item_pairs_once_per_basket {K : Type} [LinearOrder K]
    (rows : List (Row K)) (f1 : Option (List String)) (f2 : Option (List K))
    (p : K × K) (basket_items : List K) :
    counterCount (get_item_pairs rows f1 f2) p =
      (if p.1 < p.2 then
        (transactions (filterRows rows f1 f2)).countP
          (fun t => decide (p.1 ∈ t.2 ∧ p.2 ∈ t.2))
      else 0)
    ∧ (combinations2 (sortedUniqueItems basket_items)).length =
        (sortedUniqueItems basket_items).length.choose 2 :=
  ⟨get_item_pairs_counterCount rows f1 f2 p, length_combinations2 _⟩

/-- **C2**: the filter stage retains exactly the rows passing both optional
filters (an absent or empty filter restricts nothing, and the two filters are
AND-combined); the grouping stage keys exactly the transactions with at
least one surviving row, maps each to its set of distinct surviving items,
and when the filters eliminate every row the result is the empty mapping. -/
theorem group_baskets_spec {K : Type} [LinearOrder K] (rows : List (Row K))
    (f1 : Option (List String)) (f2 : Option (List K)) :
    (∀ r : Row K, r ∈ filterRows rows f1 f2 ↔
        r ∈ rows ∧ (∀ l, f1 = some l → l ≠ [] → r.Daypart ∈ l) ∧
          (∀ l, f2 = some l → l ≠ [] → r.Items ∈ l))
    ∧ (∀ t : Nat, (∃ B, (t, B) ∈ group_baskets rows f1 f2) ↔
        ∃ r ∈ filterRows rows f1 f2, r.TransactionNo = t)
    ∧ (∀ t B, (t, B) ∈ group_baskets rows f1 f2 →
        B.Nodup ∧ ∀ x : K, x ∈ B ↔
          ∃ r ∈ filterRows rows f1 f2, r.TransactionNo = t ∧ r.Items = x)
    ∧ (filterRows rows f1 f2 = [] → group_baskets rows f1 f2 = []) := by
  refine ⟨?_, ?_, ?_, ?_⟩
  · intro r
    rw [mem_filterRows_iff, passFilter_iff, passFilter_iff]
  · intro t
    constructor
    · rintro ⟨B, hB⟩
      unfold group_baskets at hB
      rcases List.mem_map.1 hB with ⟨t', ht', heq⟩
      have h1 : t'.1 = t := congrArg Prod.fst heq
      obtain ⟨hid, -⟩ :=
        (mem_transactions_iff (filterRows rows f1 f2) t'.1 t'.2).1 ht'
      rw [← h1]
      exact (mem_transactionIds_iff _ _).1 hid
    · rintro ⟨r, hr, hrt⟩
      have ht : t ∈ transactionIds (filterRows rows f1 f2) :=
        (mem_transactionIds_iff _ _).2 ⟨r, hr, hrt⟩
      refine ⟨sortedUniqueItems (((filterRows rows f1 f2).filter
        (fun r => decide (r.TransactionNo = t))).map (fun r => r.Items)), ?_⟩
      unfold group_baskets
      exact List.mem_map.2 ⟨(t, ((filterRows rows f1 f2).filter
          (fun r => decide (r.TransactionNo = t))).map (fun r => r.Items)),
        (mem_transactions_iff _ _ _).2 ⟨ht, rfl⟩, rfl⟩
  · intro t B hB
    unfold group_baskets at hB
    rcases List.mem_map.1 hB with ⟨t', ht', heq⟩
    have h1 : t'.1 = t := congrArg Prod.fst heq
    have h2 : sortedUniqueItems t'.2 = B := congrArg Prod.snd heq
    constructor
    · rw [← h2]
      exact sortedUniqueItems_nodup t'.2
    · intro x
      rw [← h2, sortedUniqueItems_mem]
      obtain ⟨-, hits⟩ :=
        (mem_transactions_iff (filterRows rows f1 f2) t'.1 t'.2).1 ht'
      rw [hits, ← h1]
      simp only [List.mem_map, List.mem_filter, decide_eq_true_eq]
      constructor
      · rintro ⟨r, ⟨hrmem, hrt⟩, hrx⟩
        exact ⟨r, hrmem, hrt, hrx⟩
      · rintro ⟨r, hrmem, hrt, hrx⟩
        exact ⟨r, ⟨hrmem, hrt⟩, hrx⟩
  · intro h
    unfold group_baskets
    rw [h]
    rfl

/-- **C5**: the average basket size is the number of filtered rows divided by
the number of distinct transaction identifiers, and it is 0 (not an error)
when there is no transaction — the code divides by `max(nunique, 1)`. -/
theorem avg_basket_spec {K : Type} (rows : List (Row K)) :
    ((rows.map (fun r => r.TransactionNo)).dedup.length = 0 →
        avg_basket rows = 0)
    ∧ (0 < (rows.map (fun r => r.TransactionNo)).dedup.length →
        avg_basket rows = (rows.length : Rat) /
          ((rows.map (fun r => r.TransactionNo)).dedup.length : Rat)) := by
  constructor
  · intro h
    have hmap : rows.map (fun r => r.TransactionNo) = [] :=
      (List.dedup_eq_nil _).1 (List.length_eq_zero.1 h)
    have hrows : rows = [] := List.map_eq_nil_iff.1 hmap
    subst hrows
    simp [avg_basket]
  · intro h
    unfold avg_basket
    rw [Nat.max_eq_left h]

/-- **C6**: every key of the pair table is a pair of two distinct items with
the first strictly below the second, and every count is bounded by the
number of baskets surviving the filters. -/
theorem get_item_pairs_invariants {K : Type} [LinearOrder K]
    (rows : List (Row K)) (f1 : Option (List String)) (f2 : Option (List K)) :
    (∀ e ∈ get_item_pairs rows f1 f2, e.1.1 < e.1.2)
    ∧ (∀ p : K × K, counterCount (get_item_pairs rows f1 f2) p ≤
        (transactions (filterRows rows f1 f2)).length) := by
  constructor
  · exact get_item_pairs_forall (P := fun e => e.1.1 < e.1.2)
      (fun a b h => h) (fun e h => h) rows f1 f2
  · intro p
    rw [get_item_pairs_counterCount]
    split
    · exact List.countP_le_length _
    · exact Nat.zero_le _

/-- **C10**: every entry stored in the pair table has a count of at least 1,
and a (canonical) pair key is present exactly when its two items co-occur
in at least one filtered basket. -/
theorem get_item_pairs_no_zero_counts {K : Type} [LinearOrder K]
    (rows : List (Row K)) (f1 : Option (List String)) (f2 : Option (List K)) :
    (∀ e ∈ get_item_pairs rows f1 f2, 1 ≤ e.2)
    ∧ (∀ p : K × K, (∃ n, (p, n) ∈ get_item_pairs rows f1 f2) ↔
        ∃ t ∈ transactions (filterRows rows f1 f2),
          p.1 ∈ t.2 ∧ p.2 ∈ t.2 ∧ p.1 < p.2) := by
  have hpos : ∀ e ∈ get_item_pairs rows f1 f2, 1 ≤ e.2 :=
    get_item_pairs_forall (P := fun e => 1 ≤ e.2) (fun a b _ => le_refl 1)
      (fun e h => Nat.le_succ_of_le h) rows f1 f2
  refine ⟨hpos, fun p => ?_⟩
  rw [mem_key_iff_counterCount_pos hpos, get_item_pairs_counterCount]
  by_cases hlt : p.1 < p.2
  · rw [if_pos hlt]
    constructor
    · intro h
      obtain ⟨t, ht, hp⟩ := List.countP_pos_iff.1 h
      simp only [decide_eq_true_eq] at hp
      exact ⟨t, ht, hp.1, hp.2, hlt⟩
    · rintro ⟨t, ht, h1, h2, -⟩
      exact List.countP_pos_iff.2 ⟨t, ht, by simp [h1, h2]⟩
  · rw [if_neg hlt]
    constructor
    · intro h
      exact absurd h (by simp)
    · rintro ⟨t, -, -, -, hl⟩
      exact absurd hl hlt

/-- **C3** (amended): `most_common` is sorted by count non-increasing,
`n = 0` yields the empty sequence, an `n` at least the table size returns
all entries, and entries of equal count keep their first-insertion order in
the table (the equal-count entries of the output form an initial run of the
equal-count entries of the table) — deterministic, but not necessarily
ascending lexicographic order of keys. -/
theorem most_common_spec {A : Type} (c : List (A × Nat)) (n : Int) :
    (most_common c n).Pairwise (fun p q => q.2 ≤ p.2)
    ∧ (n = 0 → most_common c n = [])
    ∧ ((c.length : Int) ≤ n → (most_common c n).Perm c)
    ∧ (∀ m : Nat, List.IsPrefix
        ((most_common c n).filter (fun p => decide (p.2 = m)))
        (c.filter (fun p => decide (p.2 = m)))) := by
  refine ⟨?_, ?_, ?_, ?_⟩
  · unfold most_common
    split
    · simp
    · exact List.Pairwise.sublist (List.take_sublist _ _)
        (sorted_desc_insertionSort_snd c)
  · intro hn
    unfold most_common
    rw [if_pos (le_of_eq hn)]
  · intro hlen
    unfold most_common
    split
    · rename_i hn
      have hc : c = [] := List.length_eq_zero.1 (by omega)
      subst hc
      exact List.Perm.refl []
    · rename_i hn
      have h1 : (List.insertionSort (fun p q : A × Nat => q.2 ≤ p.2) c).length ≤
          n.toNat := by
        rw [List.length_insertionSort]
        omega
      rw [List.take_of_length_le h1]
      exact List.perm_insertionSort _ c
  · intro m
    unfold most_common
    split
    · simp
    · have h1 := List.IsPrefix.filter (fun p => decide (p.2 = m))
        ( List.take_prefix n.toNat
          (List.insertionSort (fun p q : A × Nat => q.2 ≤ p.2) c))
      rwa [filter_insertionSort_snd] at h1

/-- **C3 counterexample**: on the pair table of `tieRows` (baskets `{B,C}`
then `{A,B}`) both entries have count 1, yet `most_common` returns the key
`(B,C)` before the lexicographically smaller key `(A,B)` (`'A' < 'B'`):
ties follow table insertion order, not ascending key order. -/
theorem most_common_tie_not_lex :
    most_common (get_item_pairs tieRows none none) 2 =
      [(('B', 'C'), 1), (('A', 'B'), 1)] ∧ ('A' : Char) < 'B' :=
  ⟨by decide, by decide⟩

/-- **C8** (amended): calling the top-N ranking with a negative `n` returns
the empty sequence — `heapq.nlargest` short-circuits on `n ≤ 0` — rather
than raising any error. -/
theorem most_common_neg {A : Type} (c : List (A × Nat)) (n : Int)
    (h : n < 0) : most_common c n = [] := by
  unfold most_common
  rw [if_pos (le_of_lt h)]

theorem most_common_neg_witness :
    most_common ([(('A', 'B'), 1)] : List ((Char × Char) × Nat)) (-1) = [] :=
  most_common_neg [(('A', 'B'), 1)] (-1) (by decide)

/-- **C8 counterexample**: `most_common` called with the negative `n = -3`
on a non-empty pair table returns normally with the empty sequence; no
`ParameterError` (which the code does not define) is raised. -/
theorem most_common_negative_no_error :
    most_common (get_item_pairs tieRows none none) (-3) = [] := by decide

/-- **C7**: the spec's running example: item counts are row-level
(`{A:2, B:2, C:1}` and nothing else), pair counting is basket-level
(`{(A,B):1, (A,C):1}`, transaction 3's single-item basket contributing
nothing), the average basket size is `5/3`, and a transaction with rows
`[A, A, B]` contributes count 1 to pair `(A,B)` while its item counts are
`{A:2, B:1}`. -/
theorem engine_concrete_example :
    get_item_pairs exampleRows none none = [(('A', 'B'), 1), (('A', 'C'), 1)]
    ∧ (∀ k : Char, get_item_stats exampleRows k =
        if k = 'A' then 2 else if k = 'B' then 2 else if k = 'C' then 1 else 0)
    ∧ avg_basket exampleRows = 5 / 3
    ∧ get_item_pairs duplicateRows none none = [(('A', 'B'), 1)]
    ∧ (∀ k : Char, get_item_stats duplicateRows k =
        if k = 'A' then 2 else if k = 'B' then 1 else 0) := by
  refine ⟨by decide, ?_, by norm_num [avg_basket, exampleRows], by decide, ?_⟩
  · intro k
    by_cases hA : k = 'A'
    · subst hA
      decide
    · by_cases hB : k = 'B'
      · subst hB
        decide
      · by_cases hC : k = 'C'
        · subst hC
          decide
        · rw [if_neg hA, if_neg hB, if_neg hC]
          have hA' : ¬ ('A' = k) := fun h => hA h.symm
          have hB' : ¬ ('B' = k) := fun h => hB h.symm
          have hC' : ¬ ('C' = k) := fun h => hC h.symm
          simp [get_item_stats, exampleRows, List.countP_cons, hA', hB', hC']
  · intro k
    by_cases hA : k = 'A'
    · subst hA
      decide
    · by_cases hB : k = 'B'
      · subst hB
        decide
      · rw [if_neg hA, if_neg hB]
        have hA' : ¬ ('A' = k) := fun h => hA h.symm
        have hB' : ¬ ('B' = k) := fun h => hB h.symm
        simp [get_item_stats, duplicateRows, List.countP_cons, hA', hB']

/-- **C9 counterexample**: `brunchRows` carries the segment `"Brunch"`,
which lies outside the declared enumeration: with no filter its rows are
counted like any others, and with the declared enumeration as the segment
filter they are silently dropped — in neither case is any validation error
signalled. -/
theorem brunch_rows_not_rejected :
    ("Brunch" ∉ daypart_order)
    ∧ get_item_pairs brunchRows none none = [(('c', 't'), 1)]
    ∧ get_item_pairs brunchRows (some daypart_order) none = [] :=
  ⟨by decide, by decide, by decide⟩

/-- Changing every row's `Daypart` leaves the grouping untouched: the
grouping consults only `TransactionNo` and `Items`. -/
theorem transactions_map_daypart {K : Type} (l : List (Row K)) (g : String) :
    transactions (l.map (fun r => ⟨r.TransactionNo, r.Items, g⟩)) =
      transactions l := by
  have hids : transactionIds (l.map (fun r =>
      (⟨r.TransactionNo, r.Items, g⟩ : Row K))) = transactionIds l := by
    unfold transactionIds
    rw [List.map_map]
    rfl
  unfold transactions
  rw [hids]
  apply List.map_congr_left
  intro t _
  rw [List.filter_map, List.map_map]
  rfl

/-- **C9** (amended): the counting operations never validate segments —
with no segment filter, rewriting every row's segment to an arbitrary label
(for example one outside the declared enumeration) leaves pair counting
unchanged, and with the declared enumeration `daypart_order` supplied as the
segment filter, rows whose segment lies outside the enumeration are
silently discarded rather than signalled. -/
theorem get_item_pairs_no_validation {K : Type} [LinearOrder K]
    (rows : List (Row K)) (f2 : Option (List K)) (g : String) :
    get_item_pairs (rows.map (fun r => ⟨r.TransactionNo, r.Items, g⟩))
        none f2 = get_item_pairs rows none f2
    ∧ filterRows rows (some daypart_order) f2 =
        filterRows (rows.filter (fun r => decide (r.Daypart ∈ daypart_order)))
          (some daypart_order) f2 := by
  constructor
  · have hfil : filterRows (rows.map (fun r =>
        (⟨r.TransactionNo, r.Items, g⟩ : Row K))) none f2 =
        (filterRows rows none f2).map (fun r => ⟨r.TransactionNo, r.Items, g⟩) := by
      unfold filterRows
      simp only [passFilter, List.filter_true]
      rw [List.filter_map]
      rfl
    unfold get_item_pairs
    rw [hfil, transactions_map_daypart]
  · unfold filterRows
    apply congrArg (List.filter (fun r : Row K => passFilter f2 r.Items))
    rw [List.filter_filter]
    apply List.filter_congr
    intro r _
    show passFilter (some daypart_order) r.Daypart =
      (passFilter (some daypart_order) r.Daypart && decide (r.Daypart ∈ daypart_order))
    simp only [passFilter, daypart_order]
    simp [List.isEmpty, Bool.and_self]

theorem heatmap_data_eq {K : Type} [LinearOrder K] (rows : List (Row K))
    (tl : List K) (dp : List String) :
    heatmap_data rows tl dp =
      (sortedUniqueItems ((rows.filter (fun r => decide (r.Items ∈ tl))).map
        (fun r => r.Items)),
       dp.map (fun d =>
         (d, if (rows.filter (fun r => decide (r.Items ∈ tl))).any
               (fun r => decide (r.Daypart = d)) then
               (sortedUniqueItems ((rows.filter
                   (fun r => decide (r.Items ∈ tl))).map
                 (fun r => r.Items))).map
                 (fun it => some ((rows.filter
                     (fun r => decide (r.Items ∈ tl))).countP
                   (fun r => decide (r.Daypart = d ∧ r.Items = it))))
             else (sortedUniqueItems ((rows.filter
                 (fun r => decide (r.Items ∈ tl))).map
               (fun r => r.Items))).map (fun _ => (none : Option Nat))))) :=
  rfl

theorem map_fst_map_pair {A B : Type} (l : List A) (g : A → B) :
    (l.map (fun d => (d, g d))).map Prod.fst = l := by
  rw [List.map_map]
  show l.map (fun d => d) = l
  exact List.map_id l

/-- **C4** (amended): the pivot always yields one row per entry of the
supplied segment order; a segment with at least one matching filtered row
gets its per-item counts (0-filled for absent combinations), but a segment
with no matching row gets a row of missing values (`reindex` fills `NaN`,
modelled `none`), not zeros; and the columns are the distinct items
occurring among the top-item rows, in ascending order — not the supplied
top-items sequence order. -/
theorem heatmap_data_spec {K : Type} [LinearOrder K] (rows : List (Row K))
    (top_items_list : List K) (dayparts : List String) :
    ((heatmap_data rows top_items_list dayparts).2.map Prod.fst = dayparts)
    ∧ (∀ s cells, (s, cells) ∈ (heatmap_data rows top_items_list dayparts).2 →
        cells.length = (heatmap_data rows top_items_list dayparts).1.length)
    ∧ (heatmap_data rows top_items_list dayparts).1.Pairwise (· < ·)
    ∧ (∀ i : K, i ∈ (heatmap_data rows top_items_list dayparts).1 ↔
        i ∈ top_items_list ∧ ∃ r ∈ rows, r.Items = i)
    ∧ (∀ (k : Nat) (s : String) (cells : List (Option Nat)),
        (heatmap_data rows top_items_list dayparts).2[k]? = some (s, cells) →
          dayparts[k]? = some s
          ∧ ((∃ r ∈ rows, r.Items ∈ top_items_list ∧ r.Daypart = s) →
              cells = (heatmap_data rows top_items_list dayparts).1.map
                (fun it => some (rows.countP
                  (fun r => decide (r.Daypart = s ∧ r.Items = it)))))
          ∧ ((¬ ∃ r ∈ rows, r.Items ∈ top_items_list ∧ r.Daypart = s) →
              cells = (heatmap_data rows top_items_list dayparts).1.map
                (fun _ => (none : Option Nat)))) := by
  refine ⟨?_, ?_, ?_, ?_, ?_⟩
  · rw [heatmap_data_eq]
    exact map_fst_map_pair dayparts _
  · intro s cells h
    rw [heatmap_data_eq] at h
    rcases List.mem_map.1 h with ⟨d, hd, heq⟩
    obtain ⟨-, hc⟩ := Prod.mk.inj heq
    rw [← hc]
    split <;> (rw [List.length_map]; rfl)
  · rw [heatmap_data_eq]
    exact sortedUniqueItems_pairwise _
  · intro i
    rw [heatmap_data_eq, sortedUniqueItems_mem]
    simp only [List.mem_map, List.mem_filter, decide_eq_true_eq]
    constructor
    · rintro ⟨r, ⟨hr, hrt⟩, rfl⟩
      exact ⟨hrt, r, hr, rfl⟩
    · rintro ⟨hit, r, hr, rfl⟩
      exact ⟨r, ⟨hr, hit⟩, rfl⟩
  · intro k s cells h
    rw [heatmap_data_eq, List.getElem?_map] at h
    cases hdp : dayparts[k]? with
    | none =>
      rw [hdp] at h
      simp at h
    | some d =>
      rw [hdp] at h
      simp only [Option.map_some'] at h
      have hfd := Option.some.inj h
      obtain ⟨hds, hcells⟩ := Prod.mk.inj hfd
      rw [hds] at hcells
      refine ⟨by rw [hds], ?_, ?_⟩
      · intro hex
        have hcond : (rows.filter
            (fun r => decide (r.Items ∈ top_items_list))).any
            (fun r => decide (r.Daypart = s)) = true := by
          rw [List.any_eq_true]
          obtain ⟨r, hr, hrt, hrd⟩ := hex
          exact ⟨r, List.mem_filter.2 ⟨hr, by simp [hrt]⟩, by simp [hrd]⟩
        rw [if_pos hcond] at hcells
        rw [← hcells]
        apply List.map_congr_left
        intro it hit
        congr 1
        rw [List.countP_filter]
        apply List.countP_congr
        intro r _
        have hittl : it ∈ top_items_list := by
          have hmem := (sortedUniqueItems_mem _ it).1 hit
          rcases List.mem_map.1 hmem with ⟨r', hr', rfl⟩
          have := (List.mem_filter.1 hr').2
          simpa using this
        constructor
        · intro hb
          simp only [Bool.and_eq_true, decide_eq_true_eq] at hb ⊢
          exact hb.1
        · intro hb
          simp only [decide_eq_true_eq] at hb
          simp only [Bool.and_eq_true, decide_eq_true_eq]
          exact ⟨hb, hb.2 ▸ hittl⟩
      · intro hnex
        have hcond : ¬ ((rows.filter
            (fun r => decide (r.Items ∈ top_items_list))).any
            (fun r => decide (r.Daypart = s)) = true) := by
          rw [List.any_eq_true]
          rintro ⟨r, hr, hrd⟩
          have hm := List.mem_filter.1 hr
          exact hnex ⟨r, hm.1, by simpa using hm.2, by simpa using hrd⟩
        rw [if_neg hcond] at hcells
        exact hcells.symm

/-- **C4 counterexample**: on `heatRows` (all rows in Morning) with the
frequency-ordered top items `['c', 'b']`, the pivot's columns come out in
ascending order `['b', 'c']`, not the supplied order, and the rows for the
three segments with no matching data hold missing values, not zeros. -/
theorem heatmap_counterexample :
    heatmap_data heatRows ['c', 'b'] daypart_order =
      (['b', 'c'],
       [("Morning", [some 1, some 2]), ("Afternoon", [none, none]),
        ("Evening", [none, none]), ("Night", [none, none])])
    ∧ (['b', 'c'] : List Char) ≠ ['c', 'b']
    ∧ ([none, none] : List (Option Nat)) ≠ [some 0, some 0] :=
  ⟨by decide, by decide, by decide⟩

